import Mathlib

/-!
Verification of the `ess` event-sourcing core (Go) against its specification.

This file shallowly embeds the data model and operations of the repository:

* `Event`, its fluent builders (`event.go`),
* `ValidationError` (`errors.go` / `unnamed/part_001`),
* the in-memory event store `EventsInMemory` (`events_in_memory.go`),
* the on-disk event store `EventsOnDisk` (`unnamed/part_002` / `unnamed/part_003`),
* `Command` / `CommandDefinition` (`command.go`) and the second variant of
  the same file found at `unnamed/part_007` (namespace `V2`),
* the `Application.Send` pipeline (`application.go`, the documented variant
  that projects stored events, lines 175-207).

Go maps are embedded as association lists with update-or-append semantics;
Go's `time.Time` is embedded as `Int` (nanoseconds since the epoch, so that
`UnixNano` is the identity); Go's `error` interface is `Option GoError`
(`none` is the nil error).  Side effects are made explicit: a `Replay`
invocation is modelled by a polymorphic handler-state fold, so the exact
sequence of handler invocations is recoverable by instantiating the handler
with a trace collector; the on-disk store records whether the file handle
was closed before returning.  Clocks (`clock.go`'s `Clock` interface) are
embedded as streams `Nat → Time` together with an explicit read counter, so
that successive `Now()` calls may return different times.
-/

namespace Ess

/-- Go `time.Time`, embedded as nanoseconds since the epoch.  `UnixNano`
is then the identity function. -/
abbrev Time := Int

/-- Decimal rendering used by `fmt.Sprintf("%d", t.UnixNano())`. -/
def Time.unixNanoString (t : Time) : String := toString t

/-- A payload value (`interface{}` restricted to the JSON-representable
values the core actually stores: strings and integers). -/
inductive Val where
  | str (s : String)
  | int (n : Int)
  deriving DecidableEq, Repr

/-- Lookup in a Go map embedded as an association list. -/
def lookupAssoc {β : Type} : List (String × β) → String → Option β
  | [], _ => none
  | (k', v) :: rest, k => if k' = k then some v else lookupAssoc rest k

/-- Go map assignment `m[k] = v`: replace the binding for `k` if present,
otherwise add one. -/
def setAssoc {β : Type} : List (String × β) → String → β → List (String × β)
  | [], k, v => [(k, v)]
  | (k', v') :: rest, k, v =>
      if k' = k then (k, v) :: rest else (k', v') :: setAssoc rest k v

/-- The `Event` struct (`event.go`): an immutable fact record. -/
structure Event where
  id : String
  streamId : String
  name : String
  occurredOn : Time
  persistedAt : Time
  payload : List (String × Val)
  deriving DecidableEq, Repr

/-- Constructor `NewEvent` (`event.go`): only the name is set; Go zero
values everywhere else. -/
def NewEvent (name : String) : Event :=
  { id := "", streamId := "", name := name, occurredOn := 0, persistedAt := 0, payload := [] }

/-- Builder `Event.For` (`event.go`): take the stream id from the source
aggregate's id. -/
def Event.For (e : Event) (sourceId : String) : Event := { e with streamId := sourceId }

/-- Builder `Event.Add` (`event.go`): `self.Payload[name] = value`. -/
def Event.AddField (e : Event) (name : String) (value : Val) : Event :=
  { e with payload := setAssoc e.payload name value }

/-- Builder `Event.Occur` (`event.go`): stamp the occurred-on time with the
result of the `clock.Now()` call. -/
def Event.Occur (e : Event) (t : Time) : Event := { e with occurredOn := t }

/-- Builder `Event.Persist` (`event.go`): stamp the persisted-at time with
the result of the `clock.Now()` call. -/
def Event.Persist (e : Event) (t : Time) : Event := { e with persistedAt := t }

/-! ### The in-memory store (`events_in_memory.go`)

The struct `EventsInMemory` holds `events []*Event`; we embed it as the
list of stored events.  `Replay` iterates over that list invoking
`receiver.HandleEvent(event)` on each matching event; the receiver is
embedded as a handler-state fold, so instantiating the handler with a
trace collector recovers the exact invocation sequence. -/

/-- Method `EventsInMemory.Store`: `self.events = append(self.events, events...)`. -/
def EventsInMemory.Store (events : List Event) (batch : List Event) : List Event :=
  events ++ batch

/-- Method `EventsInMemory.Replay`: iterate over the stored events in order,
handling each event whose stream id matches (`"*"` matches every event). -/
def EventsInMemory.Replay {σ : Type} (events : List Event) (streamId : String)
    (handle : σ → Event → σ) (st : σ) : σ :=
  match events with
  | [] => st
  | e :: rest =>
      EventsInMemory.Replay rest streamId handle
        (if streamId == "*" || streamId == e.streamId then handle st e else st)

/-- The stream-id test of both stores' replay loops. -/
def matchesStream (streamId : String) (e : Event) : Bool :=
  streamId == "*" || streamId == e.streamId

/-! ### ValidationError (`unnamed/part_001`, also `errors.go` without `Merge`)

The struct holds `Errors map[string][]string`; embedded as an association
list from field name to the ordered list of recorded messages.  Go's
`error` interface value is `Option GoError` at use sites; a non-nil error
is either a `*ValidationError` or some other (foreign) error, of which only
the `Error()` string matters to this core. -/

/-- The `ValidationError` struct. -/
structure ValidationError where
  Errors : List (String × List String)
  deriving DecidableEq, Repr

/-- A non-nil Go `error`: either a `*ValidationError` (the type assertion
in `Merge` succeeds) or a foreign error carrying its `Error()` string. -/
inductive GoError where
  | validation (v : ValidationError)
  | plain (msg : String)
  deriving DecidableEq, Repr

/-- Constructor `NewValidationError`: the empty map. -/
def NewValidationError : ValidationError := ⟨[]⟩

/-- Method `ValidationError.Ok`: `len(self.Errors) == 0`. -/
def ValidationError.Ok (v : ValidationError) : Bool := v.Errors.isEmpty

/-- Go `self.Errors[field] = append(self.Errors[field], msgs...)`: appends
to the message list for `field`, creating the map entry when absent (Go
creates the entry even when `msgs` is empty, because the assignment always
stores a value for the key). -/
def appendAt : List (String × List String) → String → List String → List (String × List String)
  | [], k, msgs => [(k, msgs)]
  | (k', l) :: rest, k, msgs =>
      if k' = k then (k, l ++ msgs) :: rest else (k', l) :: appendAt rest k msgs

/-- Method `ValidationError.Add`: record one description for `field`. -/
def ValidationError.Add (v : ValidationError) (field desc : String) : ValidationError :=
  ⟨appendAt v.Errors field [desc]⟩

/-- Method `ValidationError.Merge` for a non-nil argument: a foreign error
is recorded under the sentinel field `$all`; another `ValidationError` has
all of its per-field message lists appended.  (Calling the Go method with a
nil error panics inside `err.Error()`; that case is modelled at the call
site in `V2.Execute`.) -/
def ValidationError.Merge (v : ValidationError) : GoError → ValidationError
  | .plain msg => v.Add "$all" msg
  | .validation w => ⟨w.Errors.foldl (fun m kv => appendAt m kv.1 kv.2) v.Errors⟩

/-- Method `ValidationError.Return`: nil when no errors are recorded,
otherwise the instance itself. -/
def ValidationError.Return (v : ValidationError) : Option GoError :=
  if v.Errors.isEmpty then none else some (.validation v)

/-! ### Value implementations (`values.go`)

The `Value` interface is `{UnmarshalText, String, Copy}`.  The command core
uses `String` values (with a sanitizer that is either `strings.TrimSpace`
for `TrimmedString()` or the identity for `StringValue(...)`), `Identifier`
values (`Id()`), and `Time` values (written by `Acknowledge`).  Parsing of
an identifier checks the regular expression `^[-a-z0-9]+$` after trimming;
time text is embedded as the decimal rendering of the nanosecond value. -/

/-- Go `strings.TrimSpace`: drop leading and trailing whitespace. -/
def trimSpace (s : String) : String :=
  ⟨((s.data.dropWhile Char.isWhitespace).reverse.dropWhile Char.isWhitespace).reverse⟩

/-- The sanitizer function stored inside a `String` value. -/
inductive Sanitizer where
  | trimSpace
  | identity
  deriving DecidableEq, Repr

/-- Apply a sanitizer (`strings.TrimSpace` or the identity). -/
def Sanitizer.apply : Sanitizer → String → String
  | .trimSpace, s => Ess.trimSpace s
  | .identity, s => s

/-- A concrete `Value` (`values.go`): a sanitized string, a timestamp, or
an identifier. -/
inductive Value where
  | str (original sanitized : String) (sanitizer : Sanitizer)
  | time (t : Time)
  | ident (id : String)
  deriving DecidableEq, Repr

/-- Constructor `TrimmedString()`. -/
def TrimmedString : Value := .str "" "" .trimSpace

/-- Constructor `StringValue(str)`: renders as `str`; identity sanitizer. -/
def StringValue (s : String) : Value := .str "" s .identity

/-- Constructor `Id()`: a new empty identifier. -/
def IdValue : Value := .ident ""

/-- One character of the identifier character class `[-a-z0-9]`. -/
def isIdentChar (c : Char) : Bool :=
  c = '-' || ('a' ≤ c && c ≤ 'z') || ('0' ≤ c && c ≤ '9')

/-- `identifierRegexp.MatchString`: the whole (non-empty) string consists
of identifier characters. -/
def identifierMatch (s : String) : Bool :=
  !s.isEmpty && s.toList.all isIdentChar

/-- The `String()` method of each value implementation: the sanitized
string, the rendered timestamp, or the identifier text. -/
def Value.render : Value → String
  | .str _ sanitized _ => sanitized
  | .time t => toString t
  | .ident i => i

/-- The `UnmarshalText` method of each value implementation.  A `String`
never fails; an `Identifier` fails with `malformed_identifier` (leaving the
value unchanged) unless the trimmed text matches the identifier pattern; a
`Time` parses the timestamp text. -/
def Value.UnmarshalText : Value → String → Except String Value
  | .str _ _ sanitizer, text => .ok (.str text (sanitizer.apply text) sanitizer)
  | .ident _, text =>
      let t := trimSpace text
      if identifierMatch t then .ok (.ident t) else .error "malformed_identifier"
  | .time _, text =>
      match text.toInt? with
      | some n => .ok (.time n)
      | none => .error "parsing time"

/-! ### The on-disk store (`unnamed/part_002` / `unnamed/part_003`)

The log file is newline-delimited JSON, one object per stored event; we
embed the file contents as `List Json` (each element one record as read by
`json.Decoder`), and a store whose file does not yet exist as `none`.
`Store` opens with `O_CREATE|O_APPEND`, stamps each event's persisted-at
time from the injected clock, appends the encoded records, and closes the
handle via `defer out.Close()`.  `Replay` opens the file for reading and
decodes records sequentially until end-of-file; it contains no call to
`in.Close()`, so the outcome records `closed = false` on the end-of-file
path and on the decode-error path alike. -/

/-- A JSON value as read from one record of the log file.  `null` stands
for any record that is not a JSON object of the expected shape (for
example a truncated or corrupt line), on which decoding errors out. -/
inductive Json where
  | str (s : String)
  | num (n : Int)
  | obj (fields : List (String × Json))
  | null

/-- Marshal one payload value. -/
def encodeVal : Val → Json
  | .str s => .str s
  | .int n => .num n

/-- Unmarshal one payload value; anything that is not a string or a number
is a decode error. -/
def decodeVal : Json → Except String Val
  | .str s => .ok (.str s)
  | .num n => .ok (.int n)
  | _ => .error "json: cannot unmarshal payload value"

/-- Unmarshal a payload object field by field. -/
def decodePayload : List (String × Json) → Except String (List (String × Val))
  | [] => .ok []
  | (k, j) :: rest => do
      let v ← decodeVal j
      let r ← decodePayload rest
      .ok ((k, v) :: r)

/-- Marshal an `Event` as `encoding/json` does for the `Event` struct: one
object with the exported field names; timestamps are serialized as their
nanosecond value in this embedding. -/
def encodeEvent (e : Event) : Json :=
  .obj [("Id", .str e.id), ("StreamId", .str e.streamId), ("Name", .str e.name),
        ("OccurredOn", .num e.occurredOn), ("PersistedAt", .num e.persistedAt),
        ("Payload", .obj (e.payload.map (fun kv => (kv.1, encodeVal kv.2))))]

/-- Unmarshal a string-typed struct field: a missing key yields the Go
zero value, a key of the wrong type is a decode error. -/
def decodeStrField (fields : List (String × Json)) (k : String) : Except String String :=
  match lookupAssoc fields k with
  | none => .ok ""
  | some (.str s) => .ok s
  | some _ => .error "json: cannot unmarshal field"

/-- Unmarshal a timestamp struct field. -/
def decodeTimeField (fields : List (String × Json)) (k : String) : Except String Time :=
  match lookupAssoc fields k with
  | none => .ok 0
  | some (.num n) => .ok n
  | some _ => .error "json: cannot unmarshal field"

/-- Unmarshal the payload struct field. -/
def decodePayloadField (fields : List (String × Json)) : Except String (List (String × Val)) :=
  match lookupAssoc fields "Payload" with
  | none => .ok []
  | some (.obj ps) => decodePayload ps
  | some _ => .error "json: cannot unmarshal field"

/-- Unmarshal one record into a fresh `Event{}` (`dec.Decode(&event)`). -/
def decodeEvent : Json → Except String Event
  | .obj fields => do
      let id ← decodeStrField fields "Id"
      let streamId ← decodeStrField fields "StreamId"
      let name ← decodeStrField fields "Name"
      let occurredOn ← decodeTimeField fields "OccurredOn"
      let persistedAt ← decodeTimeField fields "PersistedAt"
      let payload ← decodePayloadField fields
      .ok ⟨id, streamId, name, occurredOn, persistedAt, payload⟩
  | _ => .error "json: cannot unmarshal record"

/-- Stamp a batch of events via `event.Persist(self.clock)` in order; the
clock is read once per event, at the position given by the counter. -/
def persistAll (clock : Nat → Time) (tick : Nat) : List Event → List Event
  | [] => []
  | e :: rest => e.Persist (clock tick) :: persistAll clock (tick + 1) rest

/-- Method `EventsOnDisk.Store`: create the file if needed, stamp each
event's persisted-at time and append its encoded record, then close the
handle (`defer out.Close()` — the final `Bool` is the closed flag).
Returns the new file contents, the stamped batch and the new clock
counter. -/
def EventsOnDisk.Store (file : Option (List Json)) (clock : Nat → Time) (tick : Nat)
    (events : List Event) : Option (List Json) × List Event × Nat × Bool :=
  let stamped := persistAll clock tick events
  (some ((file.getD []) ++ stamped.map encodeEvent), stamped, tick + events.length, true)

/-- The decoding loop of `EventsOnDisk.Replay`: handle each matching
record in file order; a record that fails to decode aborts with that
error.  The final `Bool` is the closed flag: the Go method returns without
calling `in.Close()` both at end-of-file and on a decode error. -/
def EventsOnDisk.replayLoop {σ : Type} (recs : List Json) (streamId : String)
    (handle : σ → Event → σ) (st : σ) : σ × Option GoError × Bool :=
  match recs with
  | [] => (st, none, false)
  | j :: rest =>
      match decodeEvent j with
      | .error msg => (st, some (.plain msg), false)
      | .ok event =>
          EventsOnDisk.replayLoop rest streamId handle
            (if streamId == "*" || streamId == event.streamId then handle st event else st)

/-- Method `EventsOnDisk.Replay`: opening a missing file surfaces the open
error to the caller (no handle was acquired, so nothing leaks: closed flag
`true`); otherwise the records are decoded sequentially. -/
def EventsOnDisk.Replay {σ : Type} (file : Option (List Json)) (streamId : String)
    (handle : σ → Event → σ) (st : σ) : σ × Option GoError × Bool :=
  match file with
  | none => (st, some (.plain "open: no such file or directory"), true)
  | some recs => EventsOnDisk.replayLoop recs streamId handle st

/-- Sequence of `Store` calls on the same on-disk store instance (or on
fresh instances over the same file): fold the batches through
`EventsOnDisk.Store`, collecting the stamped events. -/
def storeBatches (file : Option (List Json)) (clock : Nat → Time) (tick : Nat) :
    List (List Event) → Option (List Json) × List Event × Nat
  | [] => (file, [], tick)
  | b :: bs =>
      let r := EventsOnDisk.Store file clock tick b
      let rest := storeBatches r.1 clock r.2.2.1 bs
      (rest.1, r.2.1 ++ rest.2.1, rest.2.2)

/-! ### The command layer (`command.go` and its variant `unnamed/part_007`)

A command's parameter map `Fields map[string]Value` is embedded as an
association list.  The repository carries two versions of this file; the
definitions below embed `src/command.go` (used together with
`application.go`), and namespace `V2` embeds the variant at
`src/unnamed/part_007`, which differs in `Acknowledge` (it does not
synthesize an identifier) and in `Execute` (it always invokes the
receiver and merges the errors afterwards). -/

/-- The field map of a `Command`. -/
abbrev Fields := List (String × Value)

/-- Method `Command.Get`: the field identified by name, or nil. -/
def getField (fs : Fields) (k : String) : Option Value := lookupAssoc fs k

/-- Method `Command.AggregateId` (`command.go`): render the `"id"` field,
or the empty string when the field is not present. -/
def aggregateIdOf (fs : Fields) : String :=
  match getField fs "id" with
  | some v => v.render
  | none => ""

/-- Method `Command.Acknowledge` (`command.go`): one `clock.Now()` call
`now`; set the field `"now"` to `&Time{now}`; then, if `AggregateId()` is
empty, set the field `"id"` to `StringValue(fmt.Sprintf("%d",
now.UnixNano()))`. -/
def Command.AckFields (fs : Fields) (t : Time) : Fields :=
  let fs1 := setAssoc fs "now" (.time t)
  if aggregateIdOf fs1 = "" then setAssoc fs1 "id" (StringValue (Time.unixNanoString t))
  else fs1

/-- The observable outcome of a `Command.Execute` call: its returned error
value, or a runtime panic, together with whether the receiver's
`HandleCommand` method was invoked. -/
inductive ExecResult where
  | ret (e : Option GoError)
  | panicked
  deriving DecidableEq, Repr

/-- Outcome record for `Execute`. -/
structure ExecOutcome where
  result : ExecResult
  handlerInvoked : Bool
  deriving DecidableEq, Repr

/-- Method `Command.Execute` (`command.go`): when the error accumulator is
not ok, return `errors.Return()` without delivering the command to the
receiver; otherwise return the receiver's `HandleCommand` result
(`handlerResult` stands for the value that call returns). -/
def Command.Execute (errors : ValidationError) (handlerResult : Option GoError) : ExecOutcome :=
  if errors.Ok then ⟨.ret handlerResult, true⟩
  else ⟨.ret errors.Return, false⟩

namespace V2

/-- Method `Command.Acknowledge` of the `unnamed/part_007` variant: it only
sets the `"now"` field; no identifier is synthesized. -/
def AckFields (fs : Fields) (t : Time) : Fields :=
  setAssoc fs "now" (.time t)

/-- Method `Command.Set` (`unnamed/part_007`): parse `value` into the field
named `name` when that field exists, recording a parse error in the
accumulator via `self.err(name, err)`; a name not in the field map is
skipped entirely. -/
def Set (fs : Fields) (errors : ValidationError) (name value : String) :
    Fields × ValidationError :=
  match getField fs name with
  | none => (fs, errors)
  | some target =>
      match target.UnmarshalText value with
      | .ok v' => (setAssoc fs name v', errors)
      | .error msg => (fs, errors.Add name msg)

/-- Method `Command.Execute` of the `unnamed/part_007` variant: the
receiver's `HandleCommand` is invoked first, unconditionally; when the
accumulator is not ok, the receiver's error is merged into it and the
aggregate returned — and when the receiver returned a nil error, the
merge dereferences a nil interface (`err.Error()`), a runtime panic. -/
def Execute (errors : ValidationError) (handlerResult : Option GoError) : ExecOutcome :=
  if errors.Ok then ⟨.ret handlerResult, true⟩
  else
    match handlerResult with
    | some e => ⟨.ret (errors.Merge e).Return, true⟩
    | none => ⟨.panicked, true⟩

end V2

/-! ### The application pipeline (`application.go`, documented variant, lines 175-207)

The `Aggregate` interface (`interfaces.go`) is a receiver with an id, an
event-folding method (`HandleEvent`, embedded as a state transformer over
an aggregate-state type `α`) and a command-handling method
(`HandleCommand`, embedded as a function from the rehydrated state and the
command's fields to the batch of events published on the bound publisher
plus the returned error).  The `EventStore` interface is a pair of
operations over an abstract store state; `Replay` is embedded by the trace
of events it delivers to the receiver, in order, together with its error
(`EventsInMemory` and `EventsOnDisk` instantiate it below).  `Send`'s
observable effects are collected in a `SendOutcome`. -/

/-- The `Aggregate` interface, for aggregate-state type `α`. -/
structure Aggregate (α : Type) where
  aid : String
  st : α
  handleEvent : α → Event → α
  handleCommand : α → Fields → List Event × Option GoError

/-- A `Command` as `Application.Send` consumes it: name, field map, error
accumulator, the memoized receiver, and the receiver factory. -/
structure Command (α : Type) where
  name : String
  fields : Fields
  errors : ValidationError
  receiver : Option (Aggregate α)
  receiverFunc : Fields → Aggregate α

/-- The `EventStore` interface (`interfaces.go`) over store state `σ`:
`Replay` yields the trace of events delivered to the handler, in delivery
order (a prefix when it errors), plus its error; `Store` yields the new
store state plus its error. -/
structure StoreOps (σ : Type) where
  replay : σ → String → List Event × Option GoError
  store : σ → List Event → σ × Option GoError

/-- The `Application` struct: the store state, the injected clock (stream
plus read counter) and the names of the registered projections (a Go map,
so names are unique). -/
structure Application (σ : Type) where
  store : σ
  clock : Nat → Time
  tick : Nat
  projections : List String

/-- The `CommandResult` struct (`command.go`). -/
structure CommandResult where
  aggregateId : String
  err : Option GoError
  deriving Repr

/-- Everything observable about one `Send` call: the returned result, the
store state afterwards, the trace of events replayed into the receiver,
the receiver state after that replay, whether the receiver's
`HandleCommand` ran, the value `command.Execute()` returned (`none` when
the pipeline aborted before the Execute step), the events published into
the transient buffer, the occurred-on-stamped batch passed to `Store`, the
projection delivery trace (projection name, event), and the clock counter
afterwards. -/
structure SendOutcome (α σ : Type) where
  result : CommandResult
  storeAfter : σ
  replayed : List Event
  rehydrated : α
  executed : Bool
  execRes : Option (Option GoError)
  published : List Event
  stamped : List Event
  projected : List (String × Event)
  tickAfter : Nat

/-- Stamp each buffered event via `event.Occur(self.clock)`, in buffer
order, one clock read per event. -/
def occurAll (clock : Nat → Time) (tick : Nat) : List Event → List Event
  | [] => []
  | e :: rest => e.Occur (clock tick) :: occurAll clock (tick + 1) rest

/-- The projection fan-out of `Send`: for each stored event in order, the
method `Project` passes it to every registered projection. -/
def projectAll (names : List String) (events : List Event) : List (String × Event) :=
  events.flatMap (fun e => names.map (fun n => (n, e)))

/-- The receiver `Send` operates on: `command.Receiver()` memoizes, so a
pre-resolved receiver is used as-is, otherwise the definition's
`TargetFunc` is applied to the acknowledged command. -/
def Application.sendReceiver {α σ : Type} (app : Application σ) (cmd : Command α) :
    Aggregate α :=
  match cmd.receiver with
  | some r => r
  | none => cmd.receiverFunc (Command.AckFields cmd.fields (app.clock app.tick))

/-- Method `Application.Send` (`application.go` lines 175-207): acknowledge
the command, resolve its receiver, replay the receiver's stream into it
(aborting on a replay error), bind a fresh transient buffer, execute the
command (aborting on a non-nil error), stamp each buffered event's
occurred-on time, append the batch to the store (aborting on a store
error), then fan each stored event out to every registered projection and
return a success result carrying the receiver's id. -/
def Application.send {α σ : Type} (ops : StoreOps σ) (app : Application σ)
    (cmd : Command α) : SendOutcome α σ :=
  let t := app.clock app.tick
  let tick1 := app.tick + 1
  let fields1 := Command.AckFields cmd.fields t
  let receiver := app.sendReceiver cmd
  let rep := ops.replay app.store receiver.aid
  let recvState := rep.1.foldl receiver.handleEvent receiver.st
  match rep.2 with
  | some e =>
      ⟨⟨"", some e⟩, app.store, rep.1, recvState, false, none, [], [], [], tick1⟩
  | none =>
      let execR : List Event × Option GoError × Bool :=
        if cmd.errors.Ok then
          let r := receiver.handleCommand recvState fields1
          (r.1, r.2, true)
        else ([], cmd.errors.Return, false)
      match execR.2.1 with
      | some e =>
          ⟨⟨"", some e⟩, app.store, rep.1, recvState, execR.2.2, some (some e),
            execR.1, [], [], tick1⟩
      | none =>
          let stamped := occurAll app.clock tick1 execR.1
          let tick2 := tick1 + execR.1.length
          let stored := ops.store app.store stamped
          match stored.2 with
          | some e =>
              ⟨⟨"", some e⟩, stored.1, rep.1, recvState, execR.2.2, some none,
                execR.1, stamped, [], tick2⟩
          | none =>
              ⟨⟨receiver.aid, none⟩, stored.1, rep.1, recvState, execR.2.2, some none,
                execR.1, stamped, projectAll app.projections stamped, tick2⟩

/-- Collect the trace of handler invocations of a replay. -/
def traceCollector (acc : List Event) (e : Event) : List Event := acc ++ [e]

/-- The trace of events an `EventsInMemory.Replay` call delivers. -/
def EventsInMemory.replayedEvents (events : List Event) (streamId : String) : List Event :=
  EventsInMemory.Replay events streamId traceCollector []

/-- The `EventStore` operations of `EventsInMemory`: `Replay` delivers the
matching events in order and never errors; `Store` appends and never
errors. -/
def inMemoryOps : StoreOps (List Event) where
  replay s sid := (EventsInMemory.replayedEvents s sid, none)
  store s batch := (EventsInMemory.Store s batch, none)

/-- The store state of an `EventsOnDisk` instance: the log file contents
(`none` when the file does not exist) and the injected clock with its read
counter. -/
structure DiskState where
  file : Option (List Json)
  clock : Nat → Time
  tick : Nat

/-- The trace of events an `EventsOnDisk.Replay` call delivers, with its
error. -/
def EventsOnDisk.replayedEvents (file : Option (List Json)) (streamId : String) :
    List Event × Option GoError :=
  let r := EventsOnDisk.Replay file streamId traceCollector []
  (r.1, r.2.1)

/-- The `EventStore` operations of `EventsOnDisk`. -/
def onDiskOps : StoreOps DiskState where
  replay s sid := EventsOnDisk.replayedEvents s.file sid
  store s batch :=
    let r := EventsOnDisk.Store s.file s.clock s.tick batch
    ({ s with file := r.1, tick := r.2.2.1 }, none)


/-! ### Call sequences against a `ValidationError`

Claim C8 quantifies over every sequence of `Add` and `Merge` calls starting
from `NewValidationError`; such a sequence is embedded as a list of
operations. -/

/-- One mutating call against a `ValidationError`: an `Add`, or a `Merge`
of a non-nil error. -/
inductive VEOp where
  | add (field desc : String)
  | merge (e : GoError)

/-- Whether one call records an error: every `Add` does, a `Merge` of a
foreign error does, and a `Merge` of another `ValidationError` does exactly
when that instance is non-empty. -/
def VEOp.records : VEOp → Bool
  | .add _ _ => true
  | .merge (.validation w) => !w.Errors.isEmpty
  | .merge (.plain _) => true

/-- Apply a sequence of calls to an instance, first call first. -/
def applyVEOps (v : ValidationError) : List VEOp → ValidationError
  | [] => v
  | op :: rest =>
      applyVEOps (match op with | .add f d => v.Add f d | .merge e => v.Merge e) rest

/-- The instance built by a call sequence starting from `NewValidationError`. -/
def runVEOps (ops : List VEOp) : ValidationError := applyVEOps NewValidationError ops

/-! ### Concrete inputs used to witness or refute the claims -/

/-- An aggregate whose `Id()` is the wildcard string; legal for any Go type
implementing the `Aggregate` interface. -/
def starAggregate : Aggregate Unit :=
  ⟨"*", (), fun u _ => u, fun _ _ => ([], none)⟩

/-- A command carrying `starAggregate` as its resolved receiver. -/
def starCommand : Command Unit :=
  ⟨"test", [], NewValidationError, some starAggregate, fun _ => starAggregate⟩

/-- An application over an in-memory store holding one event on stream
`"a"`. -/
def starApp : Application (List Event) :=
  ⟨[(NewEvent "test.run").For "a"], fun _ => 0, 0, []⟩

/-- An aggregate that publishes one event and then denies the command with
a validation error. -/
def denyAggregate : Aggregate Unit :=
  ⟨"t1", (), fun u _ => u,
    fun _ _ => ([(NewEvent "test.run").For "t1"],
      some (.validation (NewValidationError.Add "param" "invalid")))⟩

/-- A command targeting `denyAggregate`. -/
def denyCommand : Command Unit :=
  ⟨"test", [], NewValidationError, some denyAggregate, fun _ => denyAggregate⟩

/-- An application with one stored event and one registered projection. -/
def denyApp : Application (List Event) :=
  ⟨[(NewEvent "prior").For "t1"], fun _ => 0, 0, ["proj"]⟩

/-- An aggregate that accepts the command and publishes two events. -/
def okAggregate : Aggregate Unit :=
  ⟨"t1", (), fun u _ => u,
    fun _ _ => ([(NewEvent "test.run-1").For "t1", (NewEvent "test.run-2").For "t1"], none)⟩

/-- A command targeting `okAggregate`. -/
def okCommand : Command Unit :=
  ⟨"test", [], NewValidationError, some okAggregate, fun _ => okAggregate⟩

/-- An application with one prior stored event, a constant clock reading
`42`, and two registered projections. -/
def okApp : Application (List Event) :=
  ⟨[(NewEvent "prior").For "other"], fun _ => 42, 0, ["p1", "p2"]⟩

/-- An aggregate used with the on-disk store in witnesses. -/
def diskAggregate : Aggregate Unit :=
  ⟨"t1", (), fun u _ => u, fun _ _ => ([], none)⟩

/-- A command targeting `diskAggregate`. -/
def diskCommand : Command Unit :=
  ⟨"test", [], NewValidationError, some diskAggregate, fun _ => diskAggregate⟩

/-- An on-disk application whose log file holds one corrupt record, so
that replaying it surfaces a decode error. -/
def corruptApp : Application DiskState :=
  ⟨⟨some [Json.null], fun _ => 0, 0⟩, fun _ => 0, 0, []⟩

/-! ## Supporting lemmas -/


theorem lookupAssoc_setAssoc_self {β : Type} (m : List (String × β)) (k : String) (v : β) :
    lookupAssoc (setAssoc m k v) k = some v := by
  induction m with
  | nil => simp [setAssoc, lookupAssoc]
  | cons hd tl ih =>
      obtain ⟨k', v'⟩ := hd
      by_cases h : k' = k <;> simp [setAssoc, lookupAssoc, h, ih]

theorem lookupAssoc_setAssoc_ne {β : Type} (m : List (String × β)) (k k' : String) (v : β)
    (h : k' ≠ k) : lookupAssoc (setAssoc m k v) k' = lookupAssoc m k' := by
  have h' : ¬k = k' := fun hx => h hx.symm
  induction m with
  | nil => simp [setAssoc, lookupAssoc, h']
  | cons hd tl ih =>
      obtain ⟨k₀, v₀⟩ := hd
      by_cases h₀ : k₀ = k
      · subst h₀
        simp [setAssoc, lookupAssoc, h']
      · by_cases h₁ : k₀ = k' <;> simp [setAssoc, lookupAssoc, h₀, h₁, h, ih]

theorem EventsInMemory.Replay_eq_foldl {σ : Type} (events : List Event) (streamId : String)
    (handle : σ → Event → σ) (st : σ) :
    EventsInMemory.Replay events streamId handle st =
      (events.filter (matchesStream streamId)).foldl handle st := by
  induction events generalizing st with
  | nil => rfl
  | cons e rest ih =>
      by_cases h : matchesStream streamId e = true
      · simp [EventsInMemory.Replay, matchesStream] at h ⊢
        rw [List.filter_cons_of_pos (by simpa [matchesStream] using h)]
        simp [ih, h]
      · simp [matchesStream] at h
        rw [EventsInMemory.Replay, List.filter_cons_of_neg (by simp [matchesStream, h])]
        simp [ih, h]

theorem filter_matchesStream_star (events : List Event) :
    events.filter (matchesStream "*") = events := by
  induction events with
  | nil => rfl
  | cons e rest ih => simp [matchesStream, ih]

theorem filter_matchesStream_ne_star (events : List Event) (streamId : String)
    (h : streamId ≠ "*") :
    events.filter (matchesStream streamId) =
      events.filter (fun e => e.streamId == streamId) := by
  induction events with
  | nil => rfl
  | cons e rest ih =>
      by_cases he : e.streamId = streamId
      · simp [matchesStream, he, ih, h]
      · have he' : ¬streamId = e.streamId := fun hx => he hx.symm
        simp only [List.filter_cons]
        rw [ih]
        simp [matchesStream, h, he, he']

theorem appendAt_ne_nil (m : List (String × List String)) (k : String) (msgs : List String) :
    appendAt m k msgs ≠ [] := by
  cases m with
  | nil => simp [appendAt]
  | cons hd tl =>
      obtain ⟨k', l⟩ := hd
      by_cases h : k' = k <;> simp [appendAt, h]

theorem foldl_appendAt_ne_nil (ws : List (String × List String))
    (m : List (String × List String)) (hm : m ≠ []) :
    ws.foldl (fun m kv => appendAt m kv.1 kv.2) m ≠ [] := by
  induction ws generalizing m with
  | nil => simpa
  | cons kv rest ih => exact ih _ (appendAt_ne_nil _ _ _)

theorem Merge_Errors_ne_nil (v : ValidationError) (e : GoError) (hv : v.Errors ≠ []) :
    (v.Merge e).Errors ≠ [] := by
  cases e with
  | plain msg => exact appendAt_ne_nil _ _ _
  | validation w => exact foldl_appendAt_ne_nil _ _ hv

theorem decodeVal_encodeVal (v : Val) : decodeVal (encodeVal v) = .ok v := by
  cases v <;> rfl

theorem decodePayload_encoded (p : List (String × Val)) :
    decodePayload (p.map (fun kv => (kv.1, encodeVal kv.2))) = .ok p := by
  induction p with
  | nil => rfl
  | cons kv rest ih =>
      obtain ⟨k, v⟩ := kv
      simp only [List.map_cons, decodePayload, decodeVal_encodeVal, ih]
      rfl

theorem decodeEvent_encodeEvent (e : Event) : decodeEvent (encodeEvent e) = .ok e := by
  obtain ⟨id, streamId, name, occurredOn, persistedAt, payload⟩ := e
  simp [encodeEvent, decodeEvent, decodeStrField, decodeTimeField, decodePayloadField,
        lookupAssoc, decodePayload_encoded]
  rfl

theorem persistAll_append (clock : Nat → Time) (tick : Nat) (xs ys : List Event) :
    persistAll clock tick (xs ++ ys) =
      persistAll clock tick xs ++ persistAll clock (tick + xs.length) ys := by
  induction xs generalizing tick with
  | nil => simp [persistAll]
  | cons x rest ih =>
      simp only [List.cons_append, List.append_eq, persistAll, List.length_cons]
      rw [ih]
      have h : tick + (rest.length + 1) = tick + 1 + rest.length := by omega
      rw [h]

theorem EventsOnDisk.replayLoop_encoded {σ : Type} (events : List Event) (streamId : String)
    (handle : σ → Event → σ) (st : σ) :
    EventsOnDisk.replayLoop (events.map encodeEvent) streamId handle st =
      ((events.filter (matchesStream streamId)).foldl handle st, none, false) := by
  induction events generalizing st with
  | nil => rfl
  | cons e rest ih =>
      simp only [List.map_cons, EventsOnDisk.replayLoop, decodeEvent_encodeEvent]
      by_cases h : matchesStream streamId e = true
      · rw [List.filter_cons_of_pos h]
        have hb : (streamId == "*" || streamId == e.streamId) = true := h
        simp [hb, ih]
      · rw [List.filter_cons_of_neg (by simpa using h)]
        have hb : (streamId == "*" || streamId == e.streamId) = false := by
          simpa [matchesStream] using h
        simp [hb, ih]

theorem storeBatches_eq (clock : Nat → Time) (batches : List (List Event))
    (file : List Json) (tick : Nat) :
    storeBatches (some file) clock tick batches =
      (some (file ++ (persistAll clock tick batches.flatten).map encodeEvent),
       persistAll clock tick batches.flatten, tick + batches.flatten.length) := by
  induction batches generalizing file tick with
  | nil => simp [storeBatches, persistAll]
  | cons b bs ih =>
      simp only [storeBatches, EventsOnDisk.Store, Option.getD_some, List.flatten_cons,
        persistAll_append, ih]
      simp [List.map_append, List.append_assoc, Nat.add_assoc]

theorem foldl_traceCollector (l acc : List Event) :
    l.foldl traceCollector acc = acc ++ l := by
  induction l generalizing acc with
  | nil => simp
  | cons x rest ih => simp [List.foldl_cons, traceCollector, ih]

theorem EventsInMemory.replayedEvents_eq_filter (events : List Event) (streamId : String) :
    EventsInMemory.replayedEvents events streamId =
      events.filter (matchesStream streamId) := by
  rw [EventsInMemory.replayedEvents, EventsInMemory.Replay_eq_foldl, foldl_traceCollector]
  simp

theorem storeBatches_none_eq (clock : Nat → Time) (batches : List (List Event)) (tick : Nat)
    (hb : batches ≠ []) :
    storeBatches none clock tick batches =
      (some ((persistAll clock tick batches.flatten).map encodeEvent),
       persistAll clock tick batches.flatten, tick + batches.flatten.length) := by
  cases batches with
  | nil => exact absurd rfl hb
  | cons b bs =>
      simp only [storeBatches, EventsOnDisk.Store, Option.getD_none, List.nil_append,
        storeBatches_eq, List.flatten_cons, persistAll_append]
      simp [List.map_append, Nat.add_assoc]

theorem EventsOnDisk.replayLoop_not_closed {σ : Type} (recs : List Json) (streamId : String)
    (handle : σ → Event → σ) (st : σ) :
    (EventsOnDisk.replayLoop recs streamId handle st).2.2 = false := by
  induction recs generalizing st with
  | nil => rfl
  | cons j rest ih =>
      cases hdec : decodeEvent j <;> simp [EventsOnDisk.replayLoop, hdec, ih]

theorem ValidationError.Return_none_iff (v : ValidationError) :
    v.Return = none ↔ v.Ok = true := by
  unfold ValidationError.Return ValidationError.Ok
  by_cases h : v.Errors.isEmpty <;> simp [h]

theorem ValidationError.Return_of_not_ok (v : ValidationError) (h : v.Ok = false) :
    v.Return = some (.validation v) := by
  unfold ValidationError.Ok at h
  unfold ValidationError.Return
  simp [h]

theorem applyVEOps_empty_iff (ops : List VEOp) (v : ValidationError) :
    (applyVEOps v ops).Errors = [] ↔
      (v.Errors = [] ∧ ∀ op ∈ ops, op.records = false) := by
  induction ops generalizing v with
  | nil => simp [applyVEOps]
  | cons op rest ih =>
      cases op with
      | add f d =>
          rw [show applyVEOps v (VEOp.add f d :: rest) = applyVEOps (v.Add f d) rest from rfl,
            ih]
          simp [ValidationError.Add, appendAt_ne_nil, VEOp.records, List.forall_mem_cons]
      | merge e =>
          rw [show applyVEOps v (VEOp.merge e :: rest) = applyVEOps (v.Merge e) rest from rfl,
            ih]
          cases e with
          | plain msg =>
              simp [ValidationError.Merge, ValidationError.Add, appendAt_ne_nil, VEOp.records,
                List.forall_mem_cons]
          | validation w =>
              cases hw : w.Errors with
              | nil => simp [ValidationError.Merge, hw, VEOp.records, List.forall_mem_cons]
              | cons kv ws =>
                  have hne := foldl_appendAt_ne_nil ws (appendAt v.Errors kv.1 kv.2)
                    (appendAt_ne_nil _ _ _)
                  simp [ValidationError.Merge, hw, VEOp.records, List.forall_mem_cons,
                    List.foldl_cons, hne]

theorem occurAll_const (clock : Nat → Time) (t : Time) (hc : ∀ n, clock n = t) (tick : Nat)
    (events : List Event) :
    occurAll clock tick events = events.map (fun e => e.Occur t) := by
  induction events generalizing tick with
  | nil => rfl
  | cons e rest ih => simp [occurAll, hc, ih]

theorem names_filter_not_mem (names : List String) (e : Event) (p : String)
    (hp : p ∉ names) :
    (names.map (fun n => (n, e))).filter (fun q => q.1 == p) = [] := by
  induction names with
  | nil => rfl
  | cons n rest ih =>
      have hn : ¬(n = p) := fun h => hp (h ▸ List.mem_cons_self n rest)
      simp only [List.map_cons, List.filter_cons]
      have : ((n, e).1 == p) = false := by simpa using hn
      rw [this]
      exact ih (fun h => hp (List.mem_cons_of_mem _ h))

theorem names_filter_mem (names : List String) (e : Event) (p : String)
    (hp : p ∈ names) (hnd : names.Nodup) :
    (names.map (fun n => (n, e))).filter (fun q => q.1 == p) = [(p, e)] := by
  induction names with
  | nil => exact absurd hp (List.not_mem_nil p)
  | cons n rest ih =>
      rcases List.nodup_cons.mp hnd with ⟨hnotin, hndrest⟩
      rcases List.mem_cons.mp hp with h | h
      · subst h
        simp [List.filter_cons, names_filter_not_mem rest e p hnotin]
      · have hne : ¬(n = p) := fun hx => hnotin (hx ▸ h)
        simp [List.filter_cons, hne, ih h hndrest]

theorem projectAll_filter (names : List String) (events : List Event) (p : String)
    (hp : p ∈ names) (hnd : names.Nodup) :
    ((projectAll names events).filter (fun q => q.1 == p)).map Prod.snd = events := by
  induction events with
  | nil => rfl
  | cons e rest ih =>
      have hcons : projectAll names (e :: rest) =
          names.map (fun n => (n, e)) ++ projectAll names rest := by
        simp [projectAll]
      rw [hcons, List.filter_append, List.map_append, names_filter_mem names e p hp hnd, ih]
      rfl

theorem Application.send_replayed {α σ : Type} (ops : StoreOps σ) (app : Application σ)
    (cmd : Command α) :
    (Application.send ops app cmd).replayed =
      (ops.replay app.store (app.sendReceiver cmd).aid).1 := by
  simp only [Application.send]
  cases h : (ops.replay app.store (app.sendReceiver cmd).aid).2 with
  | some e => rfl
  | none =>
      simp only []
      split <;> split <;> rfl

theorem Application.send_rehydrated {α σ : Type} (ops : StoreOps σ) (app : Application σ)
    (cmd : Command α) :
    (Application.send ops app cmd).rehydrated =
      (ops.replay app.store (app.sendReceiver cmd).aid).1.foldl
        (app.sendReceiver cmd).handleEvent (app.sendReceiver cmd).st := by
  simp only [Application.send]
  cases h : (ops.replay app.store (app.sendReceiver cmd).aid).2 with
  | some e => rfl
  | none =>
      simp only []
      split <;> split <;> rfl

theorem Application.send_replay_error {α σ : Type} (ops : StoreOps σ) (app : Application σ)
    (cmd : Command α) (e : GoError)
    (h : (ops.replay app.store (app.sendReceiver cmd).aid).2 = some e) :
    (Application.send ops app cmd).result.err = some e
    ∧ (Application.send ops app cmd).executed = false
    ∧ (Application.send ops app cmd).execRes = none
    ∧ (Application.send ops app cmd).storeAfter = app.store
    ∧ (Application.send ops app cmd).projected = [] := by
  simp [Application.send, h]

theorem Application.send_execRes_some {α σ : Type} (ops : StoreOps σ) (app : Application σ)
    (cmd : Command α) (e : GoError)
    (h : (Application.send ops app cmd).execRes = some (some e)) :
    (Application.send ops app cmd).result.err = some e
    ∧ (Application.send ops app cmd).storeAfter = app.store
    ∧ (Application.send ops app cmd).stamped = []
    ∧ (Application.send ops app cmd).projected = [] := by
  revert h
  simp only [Application.send]
  cases hrep : (ops.replay app.store (app.sendReceiver cmd).aid).2 with
  | some e' => simp
  | none =>
      by_cases hok : cmd.errors.Ok
      · simp only [if_pos hok]
        cases hhc : ((app.sendReceiver cmd).handleCommand
            ((ops.replay app.store (app.sendReceiver cmd).aid).1.foldl
              (app.sendReceiver cmd).handleEvent (app.sendReceiver cmd).st)
            (Command.AckFields cmd.fields (app.clock app.tick))).2 with
        | some e' =>
            intro h
            have he : e' = e := by simpa using h
            subst he
            simp
        | none =>
            cases hst : (ops.store app.store
                (occurAll app.clock (app.tick + 1)
                  ((app.sendReceiver cmd).handleCommand
                    ((ops.replay app.store (app.sendReceiver cmd).aid).1.foldl
                      (app.sendReceiver cmd).handleEvent (app.sendReceiver cmd).st)
                    (Command.AckFields cmd.fields (app.clock app.tick))).1)).2 with
            | some e' => simp
            | none => simp
      · rw [if_neg hok, ValidationError.Return_of_not_ok cmd.errors (by simpa using hok)]
        intro h
        have he : GoError.validation cmd.errors = e := by simpa using h
        subst he
        simp [hok]

theorem Application.send_success {α σ : Type} (ops : StoreOps σ) (app : Application σ)
    (cmd : Command α)
    (h : (Application.send ops app cmd).result.err = none) :
    (ops.replay app.store (app.sendReceiver cmd).aid).2 = none
    ∧ cmd.errors.Ok = true
    ∧ (Application.send ops app cmd).executed = true
    ∧ ((app.sendReceiver cmd).handleCommand
        ((ops.replay app.store (app.sendReceiver cmd).aid).1.foldl
          (app.sendReceiver cmd).handleEvent (app.sendReceiver cmd).st)
        (Command.AckFields cmd.fields (app.clock app.tick))).2 = none
    ∧ (Application.send ops app cmd).published =
        ((app.sendReceiver cmd).handleCommand
          ((ops.replay app.store (app.sendReceiver cmd).aid).1.foldl
            (app.sendReceiver cmd).handleEvent (app.sendReceiver cmd).st)
          (Command.AckFields cmd.fields (app.clock app.tick))).1
    ∧ (Application.send ops app cmd).stamped =
        occurAll app.clock (app.tick + 1) (Application.send ops app cmd).published
    ∧ (ops.store app.store (Application.send ops app cmd).stamped).2 = none
    ∧ (Application.send ops app cmd).storeAfter =
        (ops.store app.store (Application.send ops app cmd).stamped).1
    ∧ (Application.send ops app cmd).projected =
        projectAll app.projections (Application.send ops app cmd).stamped
    ∧ (Application.send ops app cmd).result.aggregateId = (app.sendReceiver cmd).aid := by
  revert h
  simp only [Application.send]
  cases hrep : (ops.replay app.store (app.sendReceiver cmd).aid).2 with
  | some e => simp
  | none =>
      by_cases hok : cmd.errors.Ok
      · simp only [if_pos hok]
        cases hhc : ((app.sendReceiver cmd).handleCommand
            ((ops.replay app.store (app.sendReceiver cmd).aid).1.foldl
              (app.sendReceiver cmd).handleEvent (app.sendReceiver cmd).st)
            (Command.AckFields cmd.fields (app.clock app.tick))).2 with
        | some e => simp
        | none =>
            cases hst : (ops.store app.store
                (occurAll app.clock (app.tick + 1)
                  ((app.sendReceiver cmd).handleCommand
                    ((ops.replay app.store (app.sendReceiver cmd).aid).1.foldl
                      (app.sendReceiver cmd).handleEvent (app.sendReceiver cmd).st)
                    (Command.AckFields cmd.fields (app.clock app.tick))).1)).2 with
            | some e => simp
            | none =>
                intro _
                simp [hok, hrep, hhc, hst]
      · rw [if_neg hok, ValidationError.Return_of_not_ok cmd.errors (by simpa using hok)]
        simp

theorem isEmpty_false_of_ne_nil {γ : Type} (l : List γ) (h : l ≠ []) : l.isEmpty = false := by
  cases l with
  | nil => exact absurd rfl h
  | cons a as => rfl

theorem ValidationError.Ok_iff (v : ValidationError) : v.Ok = true ↔ v.Errors = [] := by
  rw [ValidationError.Ok]
  cases v.Errors <;> simp

/-! ## The claims -/

/-- C1: for every sequence of events previously passed to `Store` and every
stream id `s`, `Replay(s, handler)` invokes the handler exactly once per
stored event whose stream id equals `s` exactly, in original append order,
and `Replay("*", handler)` once per stored event regardless of stream id;
no other value of `s` has prefix or glob matching.  Stated as: the
handler-state fold performed by a replay equals folding the handler over
exactly the matching subsequence of the stored events.  This holds for the
in-memory store (first conjunct, over its stored list) and for the on-disk
store (second conjunct, over any non-empty sequence of `Store` calls
starting from no file, whose replay additionally reports no error). -/
theorem c1_replay_exact_match :
    (∀ (σ : Type) (events : List Event) (streamId : String) (handle : σ → Event → σ) (st : σ),
      EventsInMemory.Replay events streamId handle st =
        (if streamId = "*" then events
         else events.filter (fun e => e.streamId == streamId)).foldl handle st)
    ∧
    (∀ (σ : Type) (batches : List (List Event)) (clock : Nat → Time) (tick : Nat)
        (streamId : String) (handle : σ → Event → σ) (st : σ),
      batches ≠ [] →
        EventsOnDisk.Replay (storeBatches none clock tick batches).1 streamId handle st =
          ((if streamId = "*" then (storeBatches none clock tick batches).2.1
            else (storeBatches none clock tick batches).2.1.filter
              (fun e => e.streamId == streamId)).foldl handle st, none, false)) := by
  constructor
  · intro σ events streamId handle st
    rw [EventsInMemory.Replay_eq_foldl]
    by_cases h : streamId = "*"
    · rw [if_pos h, h, filter_matchesStream_star]
    · rw [if_neg h, filter_matchesStream_ne_star events streamId h]
  · intro σ batches clock tick streamId handle st hb
    simp only [storeBatches_none_eq clock batches tick hb, EventsOnDisk.Replay]
    rw [EventsOnDisk.replayLoop_encoded]
    by_cases h : streamId = "*"
    · rw [if_pos h, h, filter_matchesStream_star]
    · rw [if_neg h, filter_matchesStream_ne_star _ streamId h]

/-- Witness for C1: two batches stored on disk across two streams; the
replay of stream `"a"` folds exactly the two `"a"` events. -/
theorem c1_replay_exact_match_witness :
    ([[(NewEvent "e1").For "a", (NewEvent "e2").For "b"], [(NewEvent "e3").For "a"]] ≠
      ([] : List (List Event)))
    ∧ EventsOnDisk.Replay
        (storeBatches none (fun _ => 7) 0
          [[(NewEvent "e1").For "a", (NewEvent "e2").For "b"], [(NewEvent "e3").For "a"]]).1
        "a" traceCollector [] =
      ((if "a" = "*" then
          (storeBatches none (fun _ => 7) 0
            [[(NewEvent "e1").For "a", (NewEvent "e2").For "b"], [(NewEvent "e3").For "a"]]).2.1
        else
          (storeBatches none (fun _ => 7) 0
            [[(NewEvent "e1").For "a", (NewEvent "e2").For "b"],
             [(NewEvent "e3").For "a"]]).2.1.filter
            (fun e => e.streamId == "a")).foldl traceCollector [], none, false) :=
  ⟨by simp,
   c1_replay_exact_match.2 (List Event)
     [[(NewEvent "e1").For "a", (NewEvent "e2").For "b"], [(NewEvent "e3").For "a"]]
     (fun _ => 7) 0 "a" traceCollector [] (by simp)⟩

/-- C2 counterexample: the claim fails for a receiver whose `Id()` is the
wildcard string `"*"`.  `Send` passes `receiver.Id()` verbatim to
`Replay`, so such a receiver has every stored event replayed into it —
here the event on stream `"a"` — which is not the subset of events whose
stream id equals the receiver's id (that subset is empty). -/
theorem c2_counterexample :
    (Application.send inMemoryOps starApp starCommand).replayed =
      [(NewEvent "test.run").For "a"]
    ∧ starApp.store.filter
        (fun e => e.streamId == (Application.sendReceiver starApp starCommand).aid) = []
    ∧ (Application.send inMemoryOps starApp starCommand).replayed ≠
        starApp.store.filter
          (fun e => e.streamId == (Application.sendReceiver starApp starCommand).aid) := by
  refine ⟨rfl, rfl, by decide⟩

/-- C2 (amended): provided the receiver's id is not the wildcard `"*"`,
`Application.Send` over the in-memory store replays into the receiver
exactly those stored events whose stream id equals the receiver's id, in
append order (the receiver's state is the fold of its event handler over
exactly that subsequence) before its command-handling method runs; a
receiver whose id is `"*"` instead has every stored event replayed into
it.  For any store, a replay error makes `Send` return that error and the
receiver's command-handling method is never invoked. -/
theorem c2_send_rehydration {α : Type} :
    (∀ (app : Application (List Event)) (cmd : Command α),
      (Application.sendReceiver app cmd).aid ≠ "*" →
        (Application.send inMemoryOps app cmd).replayed =
          app.store.filter (fun e => e.streamId == (Application.sendReceiver app cmd).aid)
        ∧ (Application.send inMemoryOps app cmd).rehydrated =
            (Application.send inMemoryOps app cmd).replayed.foldl
              (Application.sendReceiver app cmd).handleEvent
              (Application.sendReceiver app cmd).st)
    ∧ (∀ (σ : Type) (ops : StoreOps σ) (app : Application σ) (cmd : Command α) (e : GoError),
        (ops.replay app.store (Application.sendReceiver app cmd).aid).2 = some e →
          (Application.send ops app cmd).result.err = some e
          ∧ (Application.send ops app cmd).executed = false
          ∧ (Application.send ops app cmd).storeAfter = app.store) := by
  constructor
  · intro app cmd hne
    have h1 := Application.send_replayed inMemoryOps app cmd
    have h2 := Application.send_rehydrated inMemoryOps app cmd
    constructor
    · rw [h1]
      show EventsInMemory.replayedEvents _ _ = _
      rw [EventsInMemory.replayedEvents_eq_filter, filter_matchesStream_ne_star _ _ hne]
    · rw [h2, h1]
  · intro σ ops app cmd e h
    have h3 := Application.send_replay_error ops app cmd e h
    exact ⟨h3.1, h3.2.1, h3.2.2.2.1⟩

/-- Witness for C2: a receiver on stream `"t1"` sees exactly the filtered
history, and a `Send` over an on-disk store with a corrupt log record
returns the decode error without executing the command. -/
theorem c2_send_rehydration_witness :
    ((Application.send inMemoryOps okApp okCommand).replayed =
      okApp.store.filter
        (fun e => e.streamId == (Application.sendReceiver okApp okCommand).aid))
    ∧ (Application.send onDiskOps corruptApp diskCommand).result.err =
        some (.plain "json: cannot unmarshal record")
    ∧ (Application.send onDiskOps corruptApp diskCommand).executed = false := by
  refine ⟨((c2_send_rehydration (α := Unit)).1 okApp okCommand (by decide)).1, ?_, ?_⟩
  · exact ((c2_send_rehydration (α := Unit)).2 DiskState onDiskOps corruptApp diskCommand
      (.plain "json: cannot unmarshal record") rfl).1
  · exact ((c2_send_rehydration (α := Unit)).2 DiskState onDiskOps corruptApp diskCommand
      (.plain "json: cannot unmarshal record") rfl).2.1

/-- C3: when the `Execute` step of `Send` returns a non-nil error, `Send`
returns a result carrying exactly that error, the durable store is
unchanged, nothing is passed to `Store`, and no projection handler is
invoked. -/
theorem c3_execute_error_aborts {α σ : Type} (ops : StoreOps σ) (app : Application σ)
    (cmd : Command α) (e : GoError)
    (h : (Application.send ops app cmd).execRes = some (some e)) :
    (Application.send ops app cmd).result.err = some e
    ∧ (Application.send ops app cmd).storeAfter = app.store
    ∧ (Application.send ops app cmd).stamped = []
    ∧ (Application.send ops app cmd).projected = [] :=
  Application.send_execRes_some ops app cmd e h

/-- Witness for C3: a receiver that publishes one event into the transient
buffer and then denies with the validation error `param: invalid`; `Send`
returns that error, the store still holds only the prior event, and no
projection ran. -/
theorem c3_execute_error_aborts_witness :
    (Application.send inMemoryOps denyApp denyCommand).published =
      [(NewEvent "test.run").For "t1"]
    ∧ (Application.send inMemoryOps denyApp denyCommand).result.err =
        some (.validation (NewValidationError.Add "param" "invalid"))
    ∧ (Application.send inMemoryOps denyApp denyCommand).storeAfter = denyApp.store
    ∧ (Application.send inMemoryOps denyApp denyCommand).projected = [] := by
  have h := c3_execute_error_aborts inMemoryOps denyApp denyCommand
    (.validation (NewValidationError.Add "param" "invalid")) (by decide)
  exact ⟨rfl, h.1, h.2.1, h.2.2.2⟩

/-- C4: for every successful `Send` over the in-memory store under a
constant clock, every event published into the transient buffer is (a)
stamped with an occurred-on time equal to the clock's time, (b) appended
to the durable store in publish order, so that a subsequent `Replay("*")`
yields the old events followed by the new batch, and (c) delivered to
every registered projection exactly once, in publish order (projection
names are unique because Go stores them in a map). -/
theorem c4_success_stamps_stores_projects {α : Type} (app : Application (List Event))
    (cmd : Command α) (t : Time)
    (hclock : ∀ n, app.clock n = t)
    (hnd : app.projections.Nodup)
    (hok : (Application.send inMemoryOps app cmd).result.err = none) :
    (Application.send inMemoryOps app cmd).stamped =
      (Application.send inMemoryOps app cmd).published.map (fun e => e.Occur t)
    ∧ (Application.send inMemoryOps app cmd).storeAfter =
        app.store ++ (Application.send inMemoryOps app cmd).stamped
    ∧ EventsInMemory.replayedEvents (Application.send inMemoryOps app cmd).storeAfter "*" =
        app.store ++ (Application.send inMemoryOps app cmd).stamped
    ∧ ∀ p ∈ app.projections,
        (((Application.send inMemoryOps app cmd).projected).filter
            (fun q => q.1 == p)).map Prod.snd =
          (Application.send inMemoryOps app cmd).stamped := by
  obtain ⟨hrep, hok', hexec, hhc, hpub, hstamp, hsterr, hstore, hproj, haid⟩ :=
    Application.send_success inMemoryOps app cmd hok
  refine ⟨?_, ?_, ?_, ?_⟩
  · rw [hstamp, occurAll_const app.clock t hclock]
  · rw [hstore]; rfl
  · rw [hstore]
    show EventsInMemory.replayedEvents
      (EventsInMemory.Store app.store (Application.send inMemoryOps app cmd).stamped) "*" = _
    rw [EventsInMemory.replayedEvents_eq_filter, filter_matchesStream_star]
    rfl
  · intro p hp
    rw [hproj]
    exact projectAll_filter app.projections _ p hp hnd

/-- Witness for C4: a receiver publishing two events under the constant
clock `42` with two registered projections. -/
theorem c4_success_stamps_stores_projects_witness :
    (Application.send inMemoryOps okApp okCommand).stamped =
      (Application.send inMemoryOps okApp okCommand).published.map (fun e => e.Occur 42)
    ∧ (Application.send inMemoryOps okApp okCommand).storeAfter =
        okApp.store ++ (Application.send inMemoryOps okApp okCommand).stamped
    ∧ ∀ p ∈ okApp.projections,
        (((Application.send inMemoryOps okApp okCommand).projected).filter
            (fun q => q.1 == p)).map Prod.snd =
          (Application.send inMemoryOps okApp okCommand).stamped := by
  have h := c4_success_stamps_stores_projects okApp okCommand 42
    (fun _ => rfl) (by decide) (by decide)
  exact ⟨h.1, h.2.1, h.2.2.2⟩

/-- C5 counterexample: in the `unnamed/part_007` variant of `Execute`, a
command one of whose fields failed to parse (here the identifier field
`param` rejecting `"NOT OK"`) is still delivered to the receiver: its
`HandleCommand` is invoked unconditionally. -/
theorem c5_counterexample :
    ((V2.Set [("param", IdValue)] NewValidationError "param" "NOT OK").2).Ok = false
    ∧ (V2.Execute (V2.Set [("param", IdValue)] NewValidationError "param" "NOT OK").2
        (some (.plain "boom"))).handlerInvoked = true := by
  exact ⟨by decide, by decide⟩

/-- C5 (amended): when at least one field failed to parse (the error
accumulator is not ok — the only way it becomes non-ok is a parse failure
recorded by `Set`/`FromForm`), the `command.go` variant of `Execute`
returns the non-nil accumulated validation error without ever invoking the
receiver's `HandleCommand`; the `unnamed/part_007` variant instead always
invokes `HandleCommand`, and then returns the receiver's error merged into
the accumulator (non-nil) when the receiver errs, but panics on the merge
when the receiver returns nil. -/
theorem c5_execute_variants (errors : ValidationError) (handlerResult : Option GoError)
    (h : errors.Ok = false) :
    Command.Execute errors handlerResult = ⟨.ret (some (.validation errors)), false⟩
    ∧ (V2.Execute errors handlerResult).handlerInvoked = true
    ∧ (∀ e, handlerResult = some e →
        V2.Execute errors handlerResult =
          ⟨.ret (some (.validation (errors.Merge e))), true⟩)
    ∧ (handlerResult = none → (V2.Execute errors handlerResult).result = .panicked) := by
  have hne : errors.Errors ≠ [] := by
    intro hnil
    rw [ValidationError.Ok, hnil] at h
    simp at h
  have hret := ValidationError.Return_of_not_ok errors h
  refine ⟨?_, ?_, ?_, ?_⟩
  · unfold Command.Execute
    simp [h, hret]
  · unfold V2.Execute
    cases handlerResult <;> simp [h]
  · intro e he
    subst he
    unfold V2.Execute
    have hmne : (errors.Merge e).Errors ≠ [] := Merge_Errors_ne_nil errors e hne
    simp [h, ValidationError.Return_of_not_ok _ (isEmpty_false_of_ne_nil _ hmne)]
  · intro he
    subst he
    unfold V2.Execute
    simp [h]

/-- Witness for C5: a concrete non-ok accumulator with a receiver error. -/
theorem c5_execute_variants_witness :
    Command.Execute (NewValidationError.Add "param" "malformed_identifier")
        (some (.plain "boom")) =
      ⟨.ret (some (.validation (NewValidationError.Add "param" "malformed_identifier"))),
        false⟩
    ∧ (V2.Execute (NewValidationError.Add "param" "malformed_identifier")
        (some (.plain "boom"))).handlerInvoked = true := by
  have h := c5_execute_variants (NewValidationError.Add "param" "malformed_identifier")
    (some (.plain "boom")) (by decide)
  exact ⟨h.1, h.2.1⟩

/-- C6 counterexample: the `unnamed/part_007` variant of `Acknowledge`
never synthesizes an identifier: acknowledging a command whose identifier
field is absent leaves the identifier field absent instead of setting it
to the decimal rendering of the clock's nanosecond value. -/
theorem c6_counterexample :
    aggregateIdOf ([] : Fields) = ""
    ∧ getField (V2.AckFields [] 5) "id" = none := by
  exact ⟨rfl, rfl⟩

/-- C6 (amended): in the `command.go` variant, `Acknowledge` sets the
command's `now` field to the clock's current time and, exactly when the
identifier field is empty or absent, sets the identifier field to the
decimal string rendering of the clock time's `UnixNano` value, leaving an
already-set identifier unchanged; in the `unnamed/part_007` variant,
`Acknowledge` sets only the `now` field and leaves every other field —
including the identifier — untouched. -/
theorem c6_acknowledge_variants (fs : Fields) (t : Time) :
    (getField (Command.AckFields fs t) "now" = some (.time t)
     ∧ (aggregateIdOf fs = "" →
          getField (Command.AckFields fs t) "id" =
            some (StringValue (Time.unixNanoString t)))
     ∧ (aggregateIdOf fs ≠ "" →
          getField (Command.AckFields fs t) "id" = getField fs "id"))
    ∧ (getField (V2.AckFields fs t) "now" = some (.time t)
       ∧ ∀ k, k ≠ "now" → getField (V2.AckFields fs t) k = getField fs k) := by
  have hid : getField (setAssoc fs "now" (.time t)) "id" = getField fs "id" :=
    lookupAssoc_setAssoc_ne fs "now" "id" _ (by decide)
  have hagg : aggregateIdOf (setAssoc fs "now" (.time t)) = aggregateIdOf fs := by
    rw [aggregateIdOf, aggregateIdOf]
    rw [show getField (setAssoc fs "now" (Value.time t)) "id" = getField fs "id" from hid]
  refine ⟨⟨?_, ?_, ?_⟩, ?_, ?_⟩
  · rw [Command.AckFields]
    by_cases hc : aggregateIdOf (setAssoc fs "now" (.time t)) = ""
    · rw [if_pos hc]
      rw [show getField (setAssoc (setAssoc fs "now" (Value.time t)) "id"
            (StringValue (Time.unixNanoString t))) "now" =
          getField (setAssoc fs "now" (Value.time t)) "now" from
        lookupAssoc_setAssoc_ne _ "id" "now" _ (by decide)]
      exact lookupAssoc_setAssoc_self fs "now" _
    · rw [if_neg hc]
      exact lookupAssoc_setAssoc_self fs "now" _
  · intro hempty
    rw [Command.AckFields, if_pos (by rw [hagg]; exact hempty)]
    exact lookupAssoc_setAssoc_self _ "id" _
  · intro hne
    rw [Command.AckFields, if_neg (by rw [hagg]; exact hne)]
    exact hid
  · exact lookupAssoc_setAssoc_self fs "now" _
  · intro k hk
    exact lookupAssoc_setAssoc_ne fs "now" k _ hk

/-- Witness for C6: an absent identifier is synthesized from the clock
value `9` by the `command.go` variant, an existing identifier `abc` is
kept, and the `part_007` variant leaves the identifier field alone. -/
theorem c6_acknowledge_variants_witness :
    getField (Command.AckFields [] 9) "id" = some (StringValue (Time.unixNanoString 9))
    ∧ getField (Command.AckFields [("id", Value.ident "abc")] 9) "id" =
        getField [("id", Value.ident "abc")] "id"
    ∧ getField (V2.AckFields [] 9) "id" = getField ([] : Fields) "id" := by
  refine ⟨(c6_acknowledge_variants [] 9).1.2.1 rfl,
          (c6_acknowledge_variants [("id", Value.ident "abc")] 9).1.2.2 (by decide),
          (c6_acknowledge_variants [] 9).2.2 "id" (by decide)⟩

/-- C7: an event stored by the on-disk store and then obtained from a
replay over the same file (replay depends only on the file contents, so a
freshly constructed store instance over that file behaves identically)
comes back with name, stream id and payload identical to the stored event:
appending one event to a log of previously stored events makes the full
replay yield the prior events followed by the new event (with only its
persisted-at stamp changed), with no error. -/
theorem c7_on_disk_round_trip (prev : List Event) (e : Event) (clock : Nat → Time)
    (tick : Nat) :
    (EventsOnDisk.replayedEvents
        (EventsOnDisk.Store (some (prev.map encodeEvent)) clock tick [e]).1 "*").1 =
      prev ++ [e.Persist (clock tick)]
    ∧ (EventsOnDisk.replayedEvents
        (EventsOnDisk.Store (some (prev.map encodeEvent)) clock tick [e]).1 "*").2 = none
    ∧ (e.Persist (clock tick)).name = e.name
    ∧ (e.Persist (clock tick)).streamId = e.streamId
    ∧ (e.Persist (clock tick)).payload = e.payload := by
  have hfile : (EventsOnDisk.Store (some (prev.map encodeEvent)) clock tick [e]).1 =
      some ((prev ++ [e.Persist (clock tick)]).map encodeEvent) := by
    simp [EventsOnDisk.Store, persistAll]
  rw [hfile]
  have h := EventsOnDisk.replayLoop_encoded (prev ++ [e.Persist (clock tick)]) "*"
    traceCollector ([] : List Event)
  refine ⟨?_, ?_, rfl, rfl, rfl⟩
  · show (EventsOnDisk.replayLoop _ _ _ _).1 = _
    rw [h, filter_matchesStream_star, foldl_traceCollector]
    rfl
  · show (EventsOnDisk.replayLoop _ _ _ _).2.1 = _
    rw [h]

/-- C8: a `ValidationError` built by any sequence of `Add` and `Merge`
calls starting from `NewValidationError` is `Ok` exactly when no call of
the sequence recorded an error (no `Add`, no `Merge` of a non-empty
`ValidationError`, no `Merge` of a foreign error); `Return` yields nil
exactly when `Ok` holds and otherwise returns the instance itself. -/
theorem c8_ok_iff_nothing_recorded (ops : List VEOp) :
    ((runVEOps ops).Ok = true ↔ ∀ op ∈ ops, op.records = false)
    ∧ ((runVEOps ops).Return = none ↔ (runVEOps ops).Ok = true)
    ∧ ((runVEOps ops).Ok = false →
        (runVEOps ops).Return = some (.validation (runVEOps ops))) := by
  refine ⟨?_, ValidationError.Return_none_iff _, ValidationError.Return_of_not_ok _⟩
  rw [ValidationError.Ok_iff, runVEOps, applyVEOps_empty_iff]
  simp [NewValidationError]

/-- Witness for C8: one `Add` call makes the instance non-ok and `Return`
yields the instance itself. -/
theorem c8_ok_iff_nothing_recorded_witness :
    (runVEOps [VEOp.add "field" "oops"]).Ok = false
    ∧ (runVEOps [VEOp.add "field" "oops"]).Return =
        some (.validation (runVEOps [VEOp.add "field" "oops"])) :=
  ⟨by decide, (c8_ok_iff_nothing_recorded [VEOp.add "field" "oops"]).2.2 (by decide)⟩

/-- C9 (refuting the claim, against the code): `EventsOnDisk.Replay`
contains no call to `in.Close()` at all — unlike `Store`, which closes via
`defer out.Close()` — so on every exit path of a replay that successfully
opened the file, the end-of-file path and the decode-error path alike, the
file handle is left open (closed flag `false`).  The second conjunct
evaluates the decode-error exit at a concrete corrupt file, the third the
end-of-file exit at a concrete well-formed file. -/
theorem c9_replay_leaks_handle :
    (∀ (σ : Type) (recs : List Json) (streamId : String) (handle : σ → Event → σ) (st : σ),
      (EventsOnDisk.Replay (some recs) streamId handle st).2.2 = false)
    ∧ (EventsOnDisk.Replay (some [Json.null]) "*" traceCollector []).2.2 = false
    ∧ (EventsOnDisk.Replay (some [encodeEvent (NewEvent "x")]) "*"
        traceCollector []).2.2 = false := by
  refine ⟨?_, rfl, rfl⟩
  intro σ recs streamId handle st
  exact EventsOnDisk.replayLoop_not_closed recs streamId handle st

/-- C10: `Command.Set` (`unnamed/part_007`) with a field name not present
in the command's field schema is a no-op: every field value is unchanged
and no error is recorded in the accumulator. -/
theorem c10_set_unknown_field_noop (fs : Fields) (errors : ValidationError)
    (name text : String) (h : getField fs name = none) :
    V2.Set fs errors name text = (fs, errors) := by
  simp only [V2.Set, h]

/-- Witness for C10: setting the unknown field `"unknown"` on a command
with one field `"param"` changes nothing. -/
theorem c10_set_unknown_field_noop_witness :
    getField [("param", TrimmedString)] "unknown" = none
    ∧ V2.Set [("param", TrimmedString)] NewValidationError "unknown" "anything" =
        ([("param", TrimmedString)], NewValidationError) :=
  ⟨rfl, c10_set_unknown_field_noop _ _ _ _ rfl⟩

end Ess
